import Mathlib

/-!
Verification of the Konecta item-registry service (src/main.py).

The service keeps a mutable list of items (`items_db`) and a counter
(`next_id`) in process memory and exposes CRUD, filter and statistics
handlers. Each handler is embedded as a pure function from an explicit
registry state; handlers that mutate state return the new state, and
handlers that can fail return `Except ApiError`. Prices are modelled as
exact rationals; timestamps are abstract naturals supplied by the caller
(modelling `datetime.now()`).
-/

namespace Konecta

/-- The `Item` pydantic model (main.py lines 16-27): id, name, optional
description, price, availability flag and creation timestamp. -/
structure Item where
  id : Nat
  nombre : String
  descripcion : Option String
  precio : ℚ
  disponible : Bool
  fecha_creacion : Nat
deriving Repr, DecidableEq

/-- The `ItemCreate` request body (main.py lines 22-23): the four
caller-supplied fields of `ItemBase`. -/
structure ItemCreate where
  nombre : String
  descripcion : Option String
  precio : ℚ
  disponible : Bool
deriving Repr, DecidableEq

/-- Validation performed by pydantic on `ItemBase` (main.py lines 16-20)
before any handler body runs: `nombre` has 1 to 100 characters,
`descripcion` when present has at most 500 characters, `precio` is
strictly positive. -/
def ItemCreate.validB (p : ItemCreate) : Bool :=
  1 ≤ p.nombre.length && p.nombre.length ≤ 100 &&
    (match p.descripcion with
     | none => true
     | some d => d.length ≤ 500) &&
    decide (0 < p.precio)

/-- The mutable process state (main.py lines 42-62): the ordered item
list `items_db` and the id counter `next_id`. -/
structure RegistryState where
  items_db : List Item
  next_id : Nat
deriving Repr, DecidableEq

/-- Failure outcomes surfaced by the handlers: HTTP 404 for an absent id,
HTTP 422 for a request body rejected by validation. -/
inductive ApiError where
  | notFound (item_id : Nat)
  | validationError
deriving Repr, DecidableEq

/-- The two seed records (main.py lines 42-59); timestamps are taken as 0
at process start. -/
def seedItems : List Item :=
  [{ id := 1, nombre := "Laptop HP",
     descripcion := some "Laptop para trabajo profesional",
     precio := 1200.50, disponible := true, fecha_creacion := 0 },
   { id := 2, nombre := "Mouse Logitech",
     descripcion := some "Mouse inalámbrico ergonómico",
     precio := 45.99, disponible := true, fecha_creacion := 0 }]

/-- The seeded start state: the two sample items and `next_id = 3`
(main.py line 62). -/
def seedState : RegistryState :=
  { items_db := seedItems, next_id := 3 }

/-- GET /api/items (main.py lines 87-111): copy the list, then apply each
given filter in turn. -/
def obtener_items (s : RegistryState) (disponible : Option Bool)
    (precio_min precio_max : Option ℚ) : List Item :=
  let items := s.items_db
  let items := match disponible with
    | none => items
    | some b => items.filter (fun item => item.disponible == b)
  let items := match precio_min with
    | none => items
    | some m => items.filter (fun item => decide (m ≤ item.precio))
  let items := match precio_max with
    | none => items
    | some m => items.filter (fun item => decide (item.precio ≤ m))
  items

/-- GET /api/items/{item_id} (main.py lines 113-126): first item whose id
matches, else 404. -/
def obtener_item (s : RegistryState) (item_id : Nat) : Except ApiError Item :=
  match s.items_db.find? (fun item => item.id == item_id) with
  | none => .error (.notFound item_id)
  | some item => .ok item

/-- POST /api/items (main.py lines 128-147): after validation, build the
new item with id `next_id` and the current time, append it, and bump the
counter. -/
def crear_item (s : RegistryState) (item : ItemCreate) (now : Nat) :
    Except ApiError (Item × RegistryState) :=
  if item.validB then
    let nuevo_item : Item :=
      { id := s.next_id, nombre := item.nombre,
        descripcion := item.descripcion, precio := item.precio,
        disponible := item.disponible, fecha_creacion := now }
    .ok (nuevo_item,
      { items_db := s.items_db ++ [nuevo_item], next_id := s.next_id + 1 })
  else
    .error .validationError

/-- Replacement of the first item whose id matches by `f` applied to it,
returning the new item and the new list, or `none` when no item matches.
Models the find-index-then-assign pattern of the PUT handler and the
in-place field mutation of the PATCH handler. -/
def modifyFirstById (item_id : Nat) (f : Item → Item) :
    List Item → Option (Item × List Item)
  | [] => none
  | item :: rest =>
    if item.id = item_id then
      let nuevo := f item
      some (nuevo, nuevo :: rest)
    else
      match modifyFirstById item_id f rest with
      | none => none
      | some (n, rest') => some (n, item :: rest')

/-- PUT /api/items/{item_id} (main.py lines 149-173): validation of the
body happens before the handler runs; on success every field of the first
matching record is overwritten from the payload except `fecha_creacion`,
which is carried over, and `id`, which is set to the path parameter. -/
def actualizar_item (s : RegistryState) (item_id : Nat)
    (item_actualizado : ItemCreate) : Except ApiError (Item × RegistryState) :=
  if item_actualizado.validB then
    match modifyFirstById item_id
        (fun old =>
          { id := item_id, nombre := item_actualizado.nombre,
            descripcion := item_actualizado.descripcion,
            precio := item_actualizado.precio,
            disponible := item_actualizado.disponible,
            fecha_creacion := old.fecha_creacion }) s.items_db with
    | none => .error (.notFound item_id)
    | some (item_modificado, items') =>
      .ok (item_modificado, { s with items_db := items' })
  else
    .error .validationError

/-- PATCH /api/items/{item_id}/disponibilidad (main.py lines 175-190):
set only the `disponible` field of the first matching record. -/
def actualizar_disponibilidad (s : RegistryState) (item_id : Nat)
    (disponible : Bool) : Except ApiError (Item × RegistryState) :=
  match modifyFirstById item_id
      (fun item => { item with disponible := disponible }) s.items_db with
  | none => .error (.notFound item_id)
  | some (item, items') => .ok (item, { s with items_db := items' })

/-- Removal of the first item whose id matches, or `none` when no item
matches. Models the find-index-then-pop pattern of the DELETE handler. -/
def removeFirstById (item_id : Nat) : List Item → Option (List Item)
  | [] => none
  | item :: rest =>
    if item.id = item_id then some rest
    else
      match removeFirstById item_id rest with
      | none => none
      | some rest' => some (item :: rest')

/-- DELETE /api/items/{item_id} (main.py lines 192-207): pop the first
matching record, else 404. -/
def eliminar_item (s : RegistryState) (item_id : Nat) :
    Except ApiError RegistryState :=
  match removeFirstById item_id s.items_db with
  | none => .error (.notFound item_id)
  | some items' => .ok { s with items_db := items' }

/-- The statistics payload of GET /api/stats (main.py lines 223-230). -/
structure Stats where
  total_items : Nat
  items_disponibles : Nat
  items_no_disponibles : Nat
  precio_promedio : ℚ
  precio_minimo : ℚ
  precio_maximo : ℚ
deriving Repr, DecidableEq

/-- Rounding to two decimal places, half away from zero on nonnegative
inputs. The source calls the Python builtin `round`, which acts on the
IEEE-754 double; at every value this development evaluates, that double
result coincides with half-up rounding of the exact rational. In
particular the seed average is the double for 1246.49 divided by 2, which
lies strictly above the exact tie 623.245, so `round` yields 623.25,
as half-up rounding of 623.245 does. -/
def round2 (q : ℚ) : ℚ := ((q * 100 + 1 / 2).floor : ℚ) / 100

/-- GET /api/stats (main.py lines 209-230): full scan computing counts and
price aggregates, with average, min and max defaulting to 0 on an empty
list. -/
def obtener_estadisticas (s : RegistryState) : Stats :=
  let total_items := s.items_db.length
  let items_disponibles := (s.items_db.filter (fun item => item.disponible)).length
  let items_no_disponibles := total_items - items_disponibles
  let precios := s.items_db.map (fun item => item.precio)
  let precio_promedio : ℚ :=
    if precios.isEmpty then 0 else precios.sum / precios.length
  let precio_minimo : ℚ :=
    match precios with
    | [] => 0
    | p :: ps => ps.foldl min p
  let precio_maximo : ℚ :=
    match precios with
    | [] => 0
    | p :: ps => ps.foldl max p
  { total_items := total_items,
    items_disponibles := items_disponibles,
    items_no_disponibles := items_no_disponibles,
    precio_promedio := round2 precio_promedio,
    precio_minimo := precio_minimo,
    precio_maximo := precio_maximo }

/-- Requests as data, for reasoning about sequences of operations; the
timestamp a create would read from the clock is carried as a field. -/
inductive Op where
  | create (payload : ItemCreate) (now : Nat)
  | update (item_id : Nat) (payload : ItemCreate)
  | patchDisponibilidad (item_id : Nat) (disponible : Bool)
  | delete (item_id : Nat)
  | getItem (item_id : Nat)
  | listItems (disponible : Option Bool) (precio_min precio_max : Option ℚ)
  | getStats

/-- Effect of one request on the registry state. A failed request leaves
the state untouched, and the read-only handlers never touch it. -/
def step (s : RegistryState) : Op → RegistryState
  | .create payload now =>
    match crear_item s payload now with
    | .ok (_, s') => s'
    | .error _ => s
  | .update item_id payload =>
    match actualizar_item s item_id payload with
    | .ok (_, s') => s'
    | .error _ => s
  | .patchDisponibilidad item_id b =>
    match actualizar_disponibilidad s item_id b with
    | .ok (_, s') => s'
    | .error _ => s
  | .delete item_id =>
    match eliminar_item s item_id with
    | .ok s' => s'
    | .error _ => s
  | .getItem _ => s
  | .listItems _ _ _ => s
  | .getStats => s

/-- Running a sequence of requests from a state. -/
def run (s : RegistryState) (ops : List Op) : RegistryState :=
  ops.foldl step s

/-- Ids handed out by the successful creates of a request sequence, in
order of assignment. -/
def assignedIds (s : RegistryState) : List Op → List Nat
  | [] => []
  | op :: ops =>
    (match op with
     | .create payload now =>
       match crear_item s payload now with
       | .ok (item, _) => [item.id]
       | .error _ => []
     | _ => []) ++ assignedIds (step s op) ops

/-- Every id stored in the list is strictly below the counter; this holds
in the seeded state and is preserved by every request. -/
def idsBelow (s : RegistryState) : Prop :=
  ∀ item ∈ s.items_db, item.id < s.next_id

lemma modifyFirstById_eq_none (item_id : Nat) (f : Item → Item)
    (l : List Item) :
    modifyFirstById item_id f l = none ↔ ∀ x ∈ l, x.id ≠ item_id := by
  induction l with
  | nil => simp [modifyFirstById]
  | cons a l ih =>
    by_cases ha : a.id = item_id
    · simp [modifyFirstById, ha]
    · simp only [modifyFirstById, if_neg ha]
      cases hm : modifyFirstById item_id f l with
      | none =>
        simp only [List.forall_mem_cons]
        exact iff_of_true trivial ⟨ha, ih.mp hm⟩
      | some v =>
        obtain ⟨n, rest'⟩ := v
        simp only [List.forall_mem_cons]
        refine iff_of_false (by simp) ?_
        intro hall
        rw [ih.mpr hall.2] at hm
        exact Option.noConfusion hm

lemma modifyFirstById_spec (item_id : Nat) (f : Item → Item) :
    ∀ (l l' : List Item) (n : Item),
      modifyFirstById item_id f l = some (n, l') →
      ∃ pre old post, l = pre ++ old :: post ∧ l' = pre ++ f old :: post ∧
        n = f old ∧ old.id = item_id ∧ ∀ x ∈ pre, x.id ≠ item_id := by
  intro l
  induction l with
  | nil => intro l' n h; simp [modifyFirstById] at h
  | cons a l ih =>
    intro l' n h
    by_cases ha : a.id = item_id
    · simp only [modifyFirstById, if_pos ha, Option.some.injEq,
        Prod.mk.injEq] at h
      obtain ⟨rfl, rfl⟩ := h
      exact ⟨[], a, l, by simp, by simp, rfl, ha, by simp⟩
    · simp only [modifyFirstById, if_neg ha] at h
      cases hm : modifyFirstById item_id f l with
      | none => rw [hm] at h; exact Option.noConfusion h
      | some v =>
        obtain ⟨n0, rest'⟩ := v
        rw [hm] at h
        simp only [Option.some.injEq, Prod.mk.injEq] at h
        obtain ⟨rfl, rfl⟩ := h
        obtain ⟨pre, old, post, hl, hl', hn, hid, hpre⟩ := ih rest' n0 hm
        refine ⟨a :: pre, old, post, by simp [hl], by simp [hl'], hn, hid, ?_⟩
        intro x hx
        rcases List.mem_cons.mp hx with rfl | hx
        · exact ha
        · exact hpre x hx

lemma removeFirstById_eq_none (item_id : Nat) (l : List Item) :
    removeFirstById item_id l = none ↔ ∀ x ∈ l, x.id ≠ item_id := by
  induction l with
  | nil => simp [removeFirstById]
  | cons a l ih =>
    by_cases ha : a.id = item_id
    · simp [removeFirstById, ha]
    · simp only [removeFirstById, if_neg ha]
      cases hm : removeFirstById item_id l with
      | none =>
        simp only [List.forall_mem_cons]
        exact iff_of_true trivial ⟨ha, ih.mp hm⟩
      | some rest' =>
        simp only [List.forall_mem_cons]
        refine iff_of_false (by simp) ?_
        intro hall
        rw [ih.mpr hall.2] at hm
        exact Option.noConfusion hm

lemma removeFirstById_spec (item_id : Nat) :
    ∀ (l l' : List Item),
      removeFirstById item_id l = some l' →
      ∃ pre old post, l = pre ++ old :: post ∧ l' = pre ++ post ∧
        old.id = item_id ∧ ∀ x ∈ pre, x.id ≠ item_id := by
  intro l
  induction l with
  | nil => intro l' h; simp [removeFirstById] at h
  | cons a l ih =>
    intro l' h
    by_cases ha : a.id = item_id
    · simp only [removeFirstById, if_pos ha, Option.some.injEq] at h
      exact ⟨[], a, l, by simp, by simp [h], ha, by simp⟩
    · simp only [removeFirstById, if_neg ha] at h
      cases hm : removeFirstById item_id l with
      | none => rw [hm] at h; exact Option.noConfusion h
      | some rest' =>
        rw [hm] at h
        simp only [Option.some.injEq] at h
        obtain ⟨pre, old, post, hl, hl', hid, hpre⟩ := ih rest' hm
        refine ⟨a :: pre, old, post, by simp [hl], by simp [← h, hl'], hid, ?_⟩
        intro x hx
        rcases List.mem_cons.mp hx with rfl | hx
        · exact ha
        · exact hpre x hx

lemma find_first_of_decomp (item_id : Nat) (pre post : List Item)
    (old : Item) (hpre : ∀ x ∈ pre, x.id ≠ item_id) (hold : old.id = item_id) :
    (pre ++ old :: post).find? (fun item => item.id == item_id) = some old := by
  induction pre with
  | nil => simp [List.find?_cons_of_pos, hold]
  | cons a pre ih =>
    rw [List.cons_append, List.find?_cons_of_neg]
    · exact ih fun x hx => hpre x (List.mem_cons_of_mem a hx)
    · simpa using hpre a (List.mem_cons_self a pre)

lemma obtener_item_eq_notFound (s : RegistryState) (item_id : Nat) :
    obtener_item s item_id = .error (.notFound item_id) ↔
      ∀ item ∈ s.items_db, item.id ≠ item_id := by
  unfold obtener_item
  cases hf : s.items_db.find? (fun item => item.id == item_id) with
  | none =>
    refine iff_of_true rfl ?_
    intro item hmem
    simpa using List.find?_eq_none.mp hf item hmem
  | some it =>
    refine iff_of_false (by simp) ?_
    intro hall
    exact hall it (List.mem_of_find?_eq_some hf) (by simpa using List.find?_some hf)

lemma obtener_item_ok (s : RegistryState) (item_id : Nat) (item : Item)
    (h : obtener_item s item_id = .ok item) :
    item ∈ s.items_db ∧ item.id = item_id := by
  unfold obtener_item at h
  cases hf : s.items_db.find? (fun i => i.id == item_id) with
  | none => rw [hf] at h; exact Except.noConfusion h
  | some it =>
    rw [hf] at h
    simp only [Except.ok.injEq] at h
    subst h
    exact ⟨List.mem_of_find?_eq_some hf, by simpa using List.find?_some hf⟩

lemma obtener_item_of_decomp (s : RegistryState) (item_id : Nat)
    (pre post : List Item) (old : Item)
    (hdb : s.items_db = pre ++ old :: post)
    (hpre : ∀ x ∈ pre, x.id ≠ item_id) (hold : old.id = item_id) :
    obtener_item s item_id = .ok old := by
  unfold obtener_item
  rw [hdb, find_first_of_decomp item_id pre post old hpre hold]

/-- C2: for a stored item and a valid update payload, a successful
`actualizar_item` keeps the id and the creation timestamp of the existing
record and sets name, description, price and availability exactly to the
payload values (a full overwrite, not a merge); the updated record is what
a subsequent get returns. -/
theorem C2_update_full_overwrite (s s' : RegistryState) (item_id : Nat)
    (payload : ItemCreate) (old nuevo : Item)
    (hget : obtener_item s item_id = .ok old)
    (hupd : actualizar_item s item_id payload = .ok (nuevo, s')) :
    nuevo.id = old.id ∧ nuevo.fecha_creacion = old.fecha_creacion ∧
    nuevo.nombre = payload.nombre ∧ nuevo.descripcion = payload.descripcion ∧
    nuevo.precio = payload.precio ∧ nuevo.disponible = payload.disponible ∧
    obtener_item s' item_id = .ok nuevo := by
  unfold actualizar_item at hupd
  by_cases hv : payload.validB = true
  · rw [if_pos hv] at hupd
    cases hm : modifyFirstById item_id
        (fun old =>
          { id := item_id, nombre := payload.nombre,
            descripcion := payload.descripcion, precio := payload.precio,
            disponible := payload.disponible,
            fecha_creacion := old.fecha_creacion }) s.items_db with
    | none => rw [hm] at hupd; exact Except.noConfusion hupd
    | some v =>
      obtain ⟨n0, items'⟩ := v
      rw [hm] at hupd
      simp only [Except.ok.injEq, Prod.mk.injEq] at hupd
      obtain ⟨he1, he2⟩ := hupd
      subst he1
      subst he2
      obtain ⟨pre, old0, post, hdb, hl', hn, hid, hpre⟩ :=
        modifyFirstById_spec item_id _ s.items_db items' _ hm
      have h1 : obtener_item s item_id = .ok old0 :=
        obtener_item_of_decomp s item_id pre post old0 hdb hpre hid
      rw [hget] at h1
      simp only [Except.ok.injEq] at h1
      subst h1
      subst hn
      refine ⟨by simp [hid], rfl, rfl, rfl, rfl, rfl, ?_⟩
      exact obtener_item_of_decomp _ item_id pre post _ hl' hpre rfl
  · rw [if_neg hv] at hupd
    exact Except.noConfusion hupd

/-- C6: `obtener_item` fails with a 404 exactly when no stored item has
the requested id; when some item has it, the unique such item is returned
(uniqueness from the id-uniqueness invariant of the registry). -/
theorem C6_get_item (s : RegistryState) (item_id : Nat)
    (hnd : (s.items_db.map Item.id).Nodup) :
    (obtener_item s item_id = .error (.notFound item_id) ↔
      ∀ item ∈ s.items_db, item.id ≠ item_id) ∧
    (∀ item, obtener_item s item_id = .ok item ↔
      item ∈ s.items_db ∧ item.id = item_id) := by
  refine ⟨obtener_item_eq_notFound s item_id, ?_⟩
  intro item
  constructor
  · exact obtener_item_ok s item_id item
  · rintro ⟨hmem, hide⟩
    cases hf : s.items_db.find? (fun i => i.id == item_id) with
    | none =>
      have h0 := List.find?_eq_none.mp hf item hmem
      simp [hide] at h0
    | some it =>
      have h1 : it ∈ s.items_db := List.mem_of_find?_eq_some hf
      have h2 : it.id = item_id := by simpa using List.find?_some hf
      have h3 : it = item :=
        List.inj_on_of_nodup_map hnd h1 hmem (h2.trans hide.symm)
      unfold obtener_item
      rw [hf, h3]

/-- C7: `eliminar_item` fails with a 404 exactly when no stored item has
the requested id, and on success removes exactly the record with that id,
keeping every other item in place, with the counter untouched; a get on
that id afterwards fails with a 404. -/
theorem C7_delete_removes (s : RegistryState) (item_id : Nat)
    (hnd : (s.items_db.map Item.id).Nodup) :
    (eliminar_item s item_id = .error (.notFound item_id) ↔
      ∀ item ∈ s.items_db, item.id ≠ item_id) ∧
    (∀ s', eliminar_item s item_id = .ok s' →
      s'.next_id = s.next_id ∧
      (∃ pre old post, s.items_db = pre ++ old :: post ∧ old.id = item_id ∧
        s'.items_db = pre ++ post) ∧
      obtener_item s' item_id = .error (.notFound item_id)) := by
  constructor
  · unfold eliminar_item
    cases hm : removeFirstById item_id s.items_db with
    | none => exact iff_of_true rfl ((removeFirstById_eq_none _ _).mp hm)
    | some l' =>
      refine iff_of_false (by simp) ?_
      intro hall
      have h0 := (removeFirstById_eq_none item_id s.items_db).mpr hall
      rw [h0] at hm
      exact Option.noConfusion hm
  · intro s' h
    unfold eliminar_item at h
    cases hm : removeFirstById item_id s.items_db with
    | none => rw [hm] at h; exact Except.noConfusion h
    | some l' =>
      rw [hm] at h
      simp only [Except.ok.injEq] at h
      subst h
      obtain ⟨pre, old, post, hdb, hl', hid, hpre⟩ :=
        removeFirstById_spec item_id s.items_db l' hm
      have hnd' := hnd
      rw [hdb, List.map_append, List.map_cons] at hnd'
      have h2 := (List.nodup_append.mp hnd').2.1
      have h3 : old.id ∉ post.map Item.id := (List.nodup_cons.mp h2).1
      have hpost : ∀ x ∈ post, x.id ≠ item_id := by
        intro x hx hxe
        exact h3 (List.mem_map.mpr ⟨x, hx, hxe.trans hid.symm⟩)
      refine ⟨rfl, ⟨pre, old, post, hdb, hid, hl'⟩, ?_⟩
      refine (obtener_item_eq_notFound _ item_id).mpr ?_
      intro item hmem
      rw [show ({ s with items_db := l' } : RegistryState).items_db = l'
        from rfl, hl'] at hmem
      rcases List.mem_append.mp hmem with hx | hx
      · exact hpre item hx
      · exact hpost item hx

/-- C8: `actualizar_disponibilidad` fails with a 404 exactly when no
stored item has the requested id; on success it sets only the `disponible`
field of the record with that id, leaving its other fields and every other
item in place, with the counter untouched. -/
theorem C8_patch_only_available (s : RegistryState) (item_id : Nat)
    (b : Bool) :
    (actualizar_disponibilidad s item_id b = .error (.notFound item_id) ↔
      ∀ item ∈ s.items_db, item.id ≠ item_id) ∧
    (∀ nuevo s', actualizar_disponibilidad s item_id b = .ok (nuevo, s') →
      s'.next_id = s.next_id ∧
      ∃ pre old post, s.items_db = pre ++ old :: post ∧ old.id = item_id ∧
        s'.items_db = pre ++ nuevo :: post ∧
        nuevo.disponible = b ∧ nuevo.id = old.id ∧
        nuevo.nombre = old.nombre ∧ nuevo.descripcion = old.descripcion ∧
        nuevo.precio = old.precio ∧
        nuevo.fecha_creacion = old.fecha_creacion) := by
  constructor
  · unfold actualizar_disponibilidad
    cases hm : modifyFirstById item_id
        (fun item => { item with disponible := b }) s.items_db with
    | none => exact iff_of_true rfl ((modifyFirstById_eq_none _ _ _).mp hm)
    | some v =>
      obtain ⟨n, l'⟩ := v
      refine iff_of_false (by simp) ?_
      intro hall
      have h0 := (modifyFirstById_eq_none item_id
        (fun item => { item with disponible := b }) s.items_db).mpr hall
      rw [h0] at hm
      exact Option.noConfusion hm
  · intro nuevo s' h
    unfold actualizar_disponibilidad at h
    cases hm : modifyFirstById item_id
        (fun item => { item with disponible := b }) s.items_db with
    | none => rw [hm] at h; exact Except.noConfusion h
    | some v =>
      obtain ⟨n, l'⟩ := v
      rw [hm] at h
      simp only [Except.ok.injEq, Prod.mk.injEq] at h
      obtain ⟨he1, he2⟩ := h
      subst he1
      subst he2
      obtain ⟨pre, old, post, hdb, hl', hn, hid, hpre⟩ :=
        modifyFirstById_spec item_id _ s.items_db l' _ hm
      subst hn
      exact ⟨rfl, pre, old, post, hdb, hid, hl', rfl, rfl, rfl, rfl, rfl, rfl⟩

/-- C3: on the seeded two-item state, stats reports two items, both
available, none unavailable, average price 623.25 (the mean of the two
prices rounded to two decimal places), minimum 45.99 and maximum
1200.50. -/
theorem C3_stats_seeded :
    obtener_estadisticas seedState =
      { total_items := 2, items_disponibles := 2, items_no_disponibles := 0,
        precio_promedio := 623.25, precio_minimo := 45.99,
        precio_maximo := 1200.50 } ∧
    (obtener_estadisticas seedState).precio_promedio =
      round2 ((1200.50 + 45.99) / 2) := by
  constructor
  · simp only [obtener_estadisticas, seedState, seedItems, round2]
    norm_num [min_def, max_def, Rat.floor_def']
  · simp only [obtener_estadisticas, seedState, seedItems, round2]
    norm_num [Rat.floor_def']

/-- C4: the list endpoint returns exactly the stored items satisfying the
conjunction of the given filters, in stored order, and with no filters it
returns the stored sequence itself. -/
theorem C4_list_items_filters (s : RegistryState) (d : Option Bool)
    (pmin pmax : Option ℚ) :
    obtener_items s d pmin pmax =
      s.items_db.filter (fun item =>
        (match d with
         | none => true
         | some b => item.disponible == b) &&
        (match pmin with
         | none => true
         | some m => decide (m ≤ item.precio)) &&
        (match pmax with
         | none => true
         | some m => decide (item.precio ≤ m))) ∧
    obtener_items s none none none = s.items_db := by
  refine ⟨?_, rfl⟩
  cases d <;> cases pmin <;> cases pmax <;>
    simp [obtener_items, List.filter_filter, Bool.and_comm, Bool.and_assoc,
      Bool.and_left_comm]

/-- C5: a create or update whose payload fails validation (empty or
overlong name, overlong description, or price not strictly positive)
returns a validation error, and stepping the state by that request leaves
the item list and the id counter exactly as they were. -/
theorem C5_validation_rejects (s : RegistryState) (payload : ItemCreate)
    (now item_id : Nat)
    (h : payload.nombre.length = 0 ∨ 100 < payload.nombre.length ∨
      (∃ d, payload.descripcion = some d ∧ 500 < d.length) ∨
      ¬ 0 < payload.precio) :
    crear_item s payload now = .error .validationError ∧
    actualizar_item s item_id payload = .error .validationError ∧
    step s (.create payload now) = s ∧
    step s (.update item_id payload) = s := by
  have hv : payload.validB = false := by
    unfold ItemCreate.validB
    rcases h with h | h | ⟨d, hd, hlen⟩ | h
    · simp [h]
    · simp [Nat.not_le.mpr h]
    · simp [hd, Nat.not_le.mpr hlen]
    · simp [h]
  refine ⟨?_, ?_, ?_, ?_⟩ <;>
    simp [step, crear_item, actualizar_item, hv]

/-- Witness for C5 at a concrete invalid payload (empty name). -/
theorem C5_validation_rejects_witness :
    crear_item seedState ⟨"", none, 10, true⟩ 0 = .error .validationError ∧
    actualizar_item seedState 1 ⟨"", none, 10, true⟩ =
      .error .validationError ∧
    step seedState (.create ⟨"", none, 10, true⟩ 0) = seedState ∧
    step seedState (.update 1 ⟨"", none, 10, true⟩) = seedState :=
  C5_validation_rejects seedState ⟨"", none, 10, true⟩ 0 1 (Or.inl rfl)

/-- C9: stats on an empty collection reports zero for every field rather
than failing. -/
theorem C9_stats_empty (s : RegistryState) (h : s.items_db = []) :
    obtener_estadisticas s =
      { total_items := 0, items_disponibles := 0, items_no_disponibles := 0,
        precio_promedio := 0, precio_minimo := 0, precio_maximo := 0 } := by
  simp only [obtener_estadisticas, h, round2]
  norm_num [Rat.floor_def']

/-- Witness for C9 at the concrete empty registry. -/
theorem C9_stats_empty_witness :
    obtener_estadisticas { items_db := [], next_id := 3 } =
      { total_items := 0, items_disponibles := 0, items_no_disponibles := 0,
        precio_promedio := 0, precio_minimo := 0, precio_maximo := 0 } :=
  C9_stats_empty { items_db := [], next_id := 3 } rfl

/-- C10: the read-only requests (list with any filters, get by id, stats)
leave the registry state unchanged: their handlers read the state and
perform no assignment to the item list or the counter, so stepping the
state by any of them is the identity. -/
theorem C10_reads_leave_state (s : RegistryState) (item_id : Nat)
    (d : Option Bool) (pmin pmax : Option ℚ) :
    step s (.getItem item_id) = s ∧
    step s (.listItems d pmin pmax) = s ∧
    step s .getStats = s :=
  ⟨rfl, rfl, rfl⟩

lemma crear_item_ok_shape (s s' : RegistryState) (payload : ItemCreate)
    (now : Nat) (n : Item) (h : crear_item s payload now = .ok (n, s')) :
    n.id = s.next_id ∧ s'.next_id = s.next_id + 1 ∧
    s'.items_db = s.items_db ++ [n] := by
  unfold crear_item at h
  by_cases hv : payload.validB = true
  · rw [if_pos hv] at h
    simp only [Except.ok.injEq, Prod.mk.injEq] at h
    obtain ⟨h1, h2⟩ := h
    subst h1
    subst h2
    exact ⟨rfl, rfl, rfl⟩
  · rw [if_neg hv] at h
    exact Except.noConfusion h

lemma actualizar_item_ok_shape (s s' : RegistryState) (item_id : Nat)
    (payload : ItemCreate) (n : Item)
    (h : actualizar_item s item_id payload = .ok (n, s')) :
    s'.next_id = s.next_id ∧ n.id = item_id ∧
    ∃ pre old post, s.items_db = pre ++ old :: post ∧
      s'.items_db = pre ++ n :: post ∧ old.id = item_id := by
  unfold actualizar_item at h
  by_cases hv : payload.validB = true
  · rw [if_pos hv] at h
    cases hm : modifyFirstById item_id
        (fun old =>
          { id := item_id, nombre := payload.nombre,
            descripcion := payload.descripcion, precio := payload.precio,
            disponible := payload.disponible,
            fecha_creacion := old.fecha_creacion }) s.items_db with
    | none => rw [hm] at h; exact Except.noConfusion h
    | some v =>
      obtain ⟨n0, l'⟩ := v
      rw [hm] at h
      simp only [Except.ok.injEq, Prod.mk.injEq] at h
      obtain ⟨h1, h2⟩ := h
      subst h1
      subst h2
      obtain ⟨pre, old, post, hdb, hl', hn, hid, hpre⟩ :=
        modifyFirstById_spec item_id _ s.items_db l' _ hm
      subst hn
      exact ⟨rfl, rfl, pre, old, post, hdb, hl', hid⟩
  · rw [if_neg hv] at h
    exact Except.noConfusion h

lemma actualizar_disponibilidad_ok_shape (s s' : RegistryState)
    (item_id : Nat) (b : Bool) (n : Item)
    (h : actualizar_disponibilidad s item_id b = .ok (n, s')) :
    s'.next_id = s.next_id ∧ n.id = item_id ∧
    ∃ pre old post, s.items_db = pre ++ old :: post ∧
      s'.items_db = pre ++ n :: post ∧ old.id = item_id := by
  unfold actualizar_disponibilidad at h
  cases hm : modifyFirstById item_id
      (fun item => { item with disponible := b }) s.items_db with
  | none => rw [hm] at h; exact Except.noConfusion h
  | some v =>
    obtain ⟨n0, l'⟩ := v
    rw [hm] at h
    simp only [Except.ok.injEq, Prod.mk.injEq] at h
    obtain ⟨h1, h2⟩ := h
    subst h1
    subst h2
    obtain ⟨pre, old, post, hdb, hl', hn, hid, hpre⟩ :=
      modifyFirstById_spec item_id _ s.items_db l' _ hm
    subst hn
    exact ⟨rfl, hid, pre, old, post, hdb, hl', hid⟩

lemma eliminar_item_ok_shape (s s' : RegistryState) (item_id : Nat)
    (h : eliminar_item s item_id = .ok s') :
    s'.next_id = s.next_id ∧
    ∃ pre old post, s.items_db = pre ++ old :: post ∧
      s'.items_db = pre ++ post ∧ old.id = item_id := by
  unfold eliminar_item at h
  cases hm : removeFirstById item_id s.items_db with
  | none => rw [hm] at h; exact Except.noConfusion h
  | some l' =>
    rw [hm] at h
    simp only [Except.ok.injEq] at h
    subst h
    obtain ⟨pre, old, post, hdb, hl', hid, hpre⟩ :=
      removeFirstById_spec item_id s.items_db l' hm
    exact ⟨rfl, pre, old, post, hdb, hl', hid⟩

lemma step_next_id_le (s : RegistryState) (op : Op) :
    s.next_id ≤ (step s op).next_id := by
  cases op with
  | create payload now =>
    cases h : crear_item s payload now with
    | error e => simp [step, h]
    | ok v =>
      obtain ⟨n, s'⟩ := v
      simp only [step, h]
      rw [(crear_item_ok_shape s s' payload now n h).2.1]
      exact Nat.le_succ _
  | update item_id payload =>
    cases h : actualizar_item s item_id payload with
    | error e => simp [step, h]
    | ok v =>
      obtain ⟨n, s'⟩ := v
      simp only [step, h]
      rw [(actualizar_item_ok_shape s s' item_id payload n h).1]
  | patchDisponibilidad item_id b =>
    cases h : actualizar_disponibilidad s item_id b with
    | error e => simp [step, h]
    | ok v =>
      obtain ⟨n, s'⟩ := v
      simp only [step, h]
      rw [(actualizar_disponibilidad_ok_shape s s' item_id b n h).1]
  | delete item_id =>
    cases h : eliminar_item s item_id with
    | error e => simp [step, h]
    | ok s' =>
      simp only [step, h]
      rw [(eliminar_item_ok_shape s s' item_id h).1]
  | getItem item_id => exact Nat.le_refl _
  | listItems d pmin pmax => exact Nat.le_refl _
  | getStats => exact Nat.le_refl _

lemma idsBelow_step (s : RegistryState) (op : Op) (h : idsBelow s) :
    idsBelow (step s op) := by
  cases op with
  | create payload now =>
    cases hc : crear_item s payload now with
    | error e => simpa [step, hc] using h
    | ok v =>
      obtain ⟨n, s'⟩ := v
      obtain ⟨hid, hnext, hdb⟩ := crear_item_ok_shape s s' payload now n hc
      intro item hmem
      simp only [step, hc] at hmem ⊢
      rw [hdb] at hmem
      rw [hnext]
      rcases List.mem_append.mp hmem with hx | hx
      · exact Nat.lt_succ_of_lt (h item hx)
      · rw [List.mem_singleton] at hx
        subst hx
        rw [hid]
        exact Nat.lt_succ_self _
  | update item_id payload =>
    cases hc : actualizar_item s item_id payload with
    | error e => simpa [step, hc] using h
    | ok v =>
      obtain ⟨n, s'⟩ := v
      obtain ⟨hnext, hnid, pre, old, post, hdb, hdb', hid⟩ :=
        actualizar_item_ok_shape s s' item_id payload n hc
      intro item hmem
      simp only [step, hc] at hmem ⊢
      rw [hdb'] at hmem
      rw [hnext]
      rcases List.mem_append.mp hmem with hx | hx
      · exact h item (hdb ▸ List.mem_append_left _ hx)
      · rcases List.mem_cons.mp hx with rfl | hx
        · have hold : old ∈ s.items_db :=
            hdb ▸ List.mem_append_right _ (List.mem_cons_self _ _)
          calc item.id = old.id := by rw [hnid, hid]
            _ < s.next_id := h old hold
        · exact h item
            (hdb ▸ List.mem_append_right _ (List.mem_cons_of_mem _ hx))
  | patchDisponibilidad item_id b =>
    cases hc : actualizar_disponibilidad s item_id b with
    | error e => simpa [step, hc] using h
    | ok v =>
      obtain ⟨n, s'⟩ := v
      obtain ⟨hnext, hnid, pre, old, post, hdb, hdb', hid⟩ :=
        actualizar_disponibilidad_ok_shape s s' item_id b n hc
      intro item hmem
      simp only [step, hc] at hmem ⊢
      rw [hdb'] at hmem
      rw [hnext]
      rcases List.mem_append.mp hmem with hx | hx
      · exact h item (hdb ▸ List.mem_append_left _ hx)
      · rcases List.mem_cons.mp hx with rfl | hx
        · have hold : old ∈ s.items_db :=
            hdb ▸ List.mem_append_right _ (List.mem_cons_self _ _)
          calc item.id = old.id := by rw [hnid, hid]
            _ < s.next_id := h old hold
        · exact h item
            (hdb ▸ List.mem_append_right _ (List.mem_cons_of_mem _ hx))
  | delete item_id =>
    cases hc : eliminar_item s item_id with
    | error e => simpa [step, hc] using h
    | ok s' =>
      obtain ⟨hnext, pre, old, post, hdb, hdb', hid⟩ :=
        eliminar_item_ok_shape s s' item_id hc
      intro item hmem
      simp only [step, hc] at hmem ⊢
      rw [hdb'] at hmem
      rw [hnext]
      rcases List.mem_append.mp hmem with hx | hx
      · exact h item (hdb ▸ List.mem_append_left _ hx)
      · exact h item
          (hdb ▸ List.mem_append_right _ (List.mem_cons_of_mem _ hx))
  | getItem item_id => exact h
  | listItems d pmin pmax => exact h
  | getStats => exact h

lemma idsBelow_run (s : RegistryState) (ops : List Op) (h : idsBelow s) :
    idsBelow (run s ops) := by
  induction ops generalizing s with
  | nil => exact h
  | cons op ops ih => exact ih (step s op) (idsBelow_step s op h)

lemma seedState_idsBelow : idsBelow seedState := by
  intro item hmem
  rcases List.mem_cons.mp hmem with rfl | hmem
  · decide
  · rcases List.mem_cons.mp hmem with rfl | hmem
    · decide
    · exact absurd hmem (List.not_mem_nil _)

lemma assignedIds_lb (ops : List Op) :
    ∀ s a, a ∈ assignedIds s ops → s.next_id ≤ a := by
  induction ops with
  | nil => intro s a ha; simp [assignedIds] at ha
  | cons op ops ih =>
    intro s a ha
    have htail : a ∈ assignedIds (step s op) ops → s.next_id ≤ a :=
      fun hx => (step_next_id_le s op).trans (ih (step s op) a hx)
    cases op with
    | create payload now =>
      simp only [assignedIds] at ha
      cases hc : crear_item s payload now with
      | error e =>
        rw [hc] at ha
        exact htail (by simpa using ha)
      | ok v =>
        obtain ⟨n, s'⟩ := v
        rw [hc] at ha
        rcases List.mem_cons.mp (by simpa using ha) with rfl | hx
        · exact Nat.le_of_eq
            (crear_item_ok_shape s s' payload now n hc).1.symm
        · exact htail hx
    | update item_id payload =>
      simp only [assignedIds, List.nil_append] at ha
      exact htail ha
    | patchDisponibilidad item_id b =>
      simp only [assignedIds, List.nil_append] at ha
      exact htail ha
    | delete item_id =>
      simp only [assignedIds, List.nil_append] at ha
      exact htail ha
    | getItem item_id =>
      simp only [assignedIds, List.nil_append] at ha
      exact htail ha
    | listItems d pmin pmax =>
      simp only [assignedIds, List.nil_append] at ha
      exact htail ha
    | getStats =>
      simp only [assignedIds, List.nil_append] at ha
      exact htail ha

lemma assignedIds_pairwise (ops : List Op) :
    ∀ s, List.Pairwise (· < ·) (assignedIds s ops) := by
  induction ops with
  | nil => intro s; simp [assignedIds]
  | cons op ops ih =>
    intro s
    cases op with
    | create payload now =>
      simp only [assignedIds]
      cases hc : crear_item s payload now with
      | error e =>
        simpa using ih (step s (.create payload now))
      | ok v =>
        obtain ⟨n, s'⟩ := v
        have hstep : step s (.create payload now) = s' := by
          simp [step, hc]
        refine List.Pairwise.cons ?_ ?_
        · intro b hb
          rw [hstep] at hb
          have h1 := assignedIds_lb ops s' b hb
          have h2 : s'.next_id = s.next_id + 1 :=
            (crear_item_ok_shape s s' payload now n hc).2.1
          have h3 : n.id = s.next_id :=
            (crear_item_ok_shape s s' payload now n hc).1
          omega
        · rw [hstep]
          exact ih s'
    | update item_id payload =>
      simpa [assignedIds] using ih (step s (.update item_id payload))
    | patchDisponibilidad item_id b =>
      simpa [assignedIds] using ih (step s (.patchDisponibilidad item_id b))
    | delete item_id =>
      simpa [assignedIds] using ih (step s (.delete item_id))
    | getItem item_id =>
      simpa [assignedIds] using ih (step s (.getItem item_id))
    | listItems d pmin pmax =>
      simpa [assignedIds] using ih (step s (.listItems d pmin pmax))
    | getStats =>
      simpa [assignedIds] using ih (step s .getStats)

lemma run_append_single (s : RegistryState) (ops : List Op) (op : Op) :
    run s (ops ++ [op]) = step (run s ops) op := by
  rw [run, List.foldl_append]
  rfl

/-- C1: along any request sequence from the seeded state (seed ids 1 and
2, counter at 3), the seed ids followed by the ids handed out by the
successful creates form a strictly increasing sequence, so every create
returns an id strictly greater than every previously assigned id; and an
id held by a stored item at the moment a delete occurs is never assigned
by any later create. -/
theorem C1_ids_monotone (ops : List Op) :
    List.Pairwise (· < ·)
      (seedItems.map Item.id ++ assignedIds seedState ops) ∧
    (∀ pre d post, ops = pre ++ Op.delete d :: post →
      d ∈ (run seedState pre).items_db.map Item.id →
      d ∉ assignedIds (run seedState (pre ++ [Op.delete d])) post) := by
  constructor
  · rw [List.pairwise_append]
    refine ⟨?_, assignedIds_pairwise ops seedState, ?_⟩
    · decide
    · intro a ha b hb
      have hb3 : (3 : Nat) ≤ b := assignedIds_lb ops seedState b hb
      have ha' : a = 1 ∨ a = 2 := by
        simpa [seedItems] using ha
      rcases ha' with rfl | rfl <;> omega
  · intro pre d post hops hd hmem
    have h1 : idsBelow (run seedState pre) :=
      idsBelow_run seedState pre seedState_idsBelow
    obtain ⟨item, hitem, hide⟩ := List.mem_map.mp hd
    have h2 : d < (run seedState pre).next_id := hide ▸ h1 item hitem
    have h3 : (run seedState pre).next_id ≤
        (run seedState (pre ++ [Op.delete d])).next_id := by
      rw [run_append_single]
      exact step_next_id_le _ _
    have h4 := assignedIds_lb post _ d hmem
    omega

/-- Witness for C1: deleting id 1 from the seeded state and then creating
a fresh item does not reassign id 1. -/
theorem C1_ids_monotone_witness :
    1 ∉ assignedIds (run seedState ([] ++ [Op.delete 1]))
      [Op.create ⟨"Teclado", none, 10, true⟩ 7] :=
  (C1_ids_monotone
      ([] ++ Op.delete 1 :: [Op.create ⟨"Teclado", none, 10, true⟩ 7])).2
    [] 1 [Op.create ⟨"Teclado", none, 10, true⟩ 7] rfl (by decide)

/-- Witness for C2: updating seed item 1 with a concrete payload keeps
its creation data and overwrites its name, as a get on the new state
shows. -/
theorem C2_update_full_overwrite_witness :
    (⟨1, "X", some "d", 10, false, 0⟩ : Item).nombre = "X" ∧
    obtener_item
      { items_db := [⟨1, "X", some "d", 10, false, 0⟩,
          ⟨2, "Mouse Logitech", some "Mouse inalámbrico ergonómico",
            45.99, true, 0⟩], next_id := 3 } 1 =
      .ok ⟨1, "X", some "d", 10, false, 0⟩ := by
  have h := C2_update_full_overwrite seedState
    { items_db := [⟨1, "X", some "d", 10, false, 0⟩,
        ⟨2, "Mouse Logitech", some "Mouse inalámbrico ergonómico",
          45.99, true, 0⟩], next_id := 3 }
    1 ⟨"X", some "d", 10, false⟩
    ⟨1, "Laptop HP", some "Laptop para trabajo profesional", 1200.50,
      true, 0⟩
    ⟨1, "X", some "d", 10, false, 0⟩ rfl rfl
  exact ⟨h.2.2.1 ▸ rfl, h.2.2.2.2.2.2⟩

/-- Witness for C6: the seeded registry returns seed item 1 when id 1 is
requested. -/
theorem C6_get_item_witness :
    obtener_item seedState 1 =
      .ok ⟨1, "Laptop HP", some "Laptop para trabajo profesional",
        1200.50, true, 0⟩ :=
  ((C6_get_item seedState 1 (by decide)).2 _).mpr
    ⟨List.mem_cons_self _ _, rfl⟩

/-- Witness for C7: after deleting id 1 from the seeded state, a get of
id 1 fails with a 404. -/
theorem C7_delete_removes_witness :
    obtener_item
      { items_db := [⟨2, "Mouse Logitech",
          some "Mouse inalámbrico ergonómico", 45.99, true, 0⟩],
        next_id := 3 } 1 = .error (.notFound 1) :=
  ((C7_delete_removes seedState 1 (by decide)).2
      { items_db := [⟨2, "Mouse Logitech",
          some "Mouse inalámbrico ergonómico", 45.99, true, 0⟩],
        next_id := 3 } rfl).2.2

/-- Witness for C8: patching the availability of seed item 1 to false
leaves the id counter unchanged. -/
theorem C8_patch_only_available_witness :
    ({ items_db := [⟨1, "Laptop HP",
          some "Laptop para trabajo profesional", 1200.50, false, 0⟩,
        ⟨2, "Mouse Logitech", some "Mouse inalámbrico ergonómico",
          45.99, true, 0⟩], next_id := 3 } : RegistryState).next_id =
      seedState.next_id :=
  ((C8_patch_only_available seedState 1 false).2
      ⟨1, "Laptop HP", some "Laptop para trabajo profesional", 1200.50,
        false, 0⟩
      { items_db := [⟨1, "Laptop HP",
            some "Laptop para trabajo profesional", 1200.50, false, 0⟩,
          ⟨2, "Mouse Logitech", some "Mouse inalámbrico ergonómico",
            45.99, true, 0⟩], next_id := 3 } rfl).1

end Konecta
